import Mathlib

/-!
Shallow embedding of the `micro-http-async` request parser and router
(`src/request.rs`, `src/routes.rs`).  Rust `String`/`str` values are modelled
as their UTF-8 byte sequences (`List Nat`), so every standard-library string
operation used by the code (`split`, `contains`, `String::from_utf8`) acts on
bytes exactly as in Rust.  Fallible operations (indexing that can panic,
`unwrap`, `expect`) are modelled with `Option`: `none` is a panic.
-/

namespace MicroHttp

/-- Rust strings as UTF-8 byte sequences. -/
abbrev Str := List Nat

/-- UTF-8 encoding of a single code point (standard encoding, used only to
spell out ASCII literals from the source). -/
def utf8EncodeCp (c : Nat) : List Nat :=
  if c < 0x80 then [c]
  else if c < 0x800 then [0xC0 + c / 64, 0x80 + c % 64]
  else if c < 0x10000 then [0xE0 + c / 4096, 0x80 + c / 64 % 64, 0x80 + c % 64]
  else [0xF0 + c / 262144, 0x80 + c / 4096 % 64, 0x80 + c / 64 % 64, 0x80 + c % 64]

/-- The byte sequence of a Rust string literal. -/
def lit (s : String) : Str :=
  s.toList.flatMap (fun c => utf8EncodeCp c.toNat)

/-- `starts_with s p`: does `s` begin with `p`?  (Rust `str::starts_with`.) -/
def starts_with : Str → Str → Bool
  | _, [] => true
  | [], _ :: _ => false
  | a :: s, b :: p => a == b && starts_with s p

/-- `contains_sub s p`: does `s` contain `p` as a contiguous substring?
(Rust `str::contains` with a string pattern.) -/
def contains_sub : Str → Str → Bool
  | s, p =>
    if starts_with s p then true
    else
      match s with
      | [] => false
      | _ :: rest => contains_sub rest p

/-- Bytes after the first occurrence of `pat` in `s` (`none` if absent). -/
def after_marker : Str → Str → Option Str
  | s, pat =>
    if starts_with s pat then some (s.drop pat.length)
    else
      match s with
      | [] => none
      | _ :: rest => after_marker rest pat

/-- Bytes of `s` before the first occurrence of `pat` (all of `s` if absent). -/
def before_marker : Str → Str → Str
  | s, pat =>
    if starts_with s pat then []
    else
      match s with
      | [] => []
      | c :: rest => c :: before_marker rest pat

/-- Worker for `split_on`: splits on the separator `b :: sep` at each leftmost
non-overlapping occurrence.  `fuel` bounds the recursion; `split_on` passes the
input length, which step counting below shows is always sufficient, so the
fuel-exhausted branch is unreachable. -/
def split_aux (b : Nat) (sep : Str) : Nat → Str → Str → List Str
  | _, [], acc => [acc.reverse]
  | 0, _ :: _, acc => [acc.reverse]
  | fuel + 1, c :: rest, acc =>
    if starts_with (c :: rest) (b :: sep) then
      acc.reverse :: split_aux b sep fuel (rest.drop sep.length) []
    else
      split_aux b sep fuel rest (c :: acc)

/-- Rust `str::split` with a string pattern (collected to a `Vec<String>`).
All separators appearing in the source are non-empty. -/
def split_on (sep s : Str) : List Str :=
  match sep with
  | [] => [s]
  | b :: sep' => split_aux b sep' s.length s []

def CRLF : Str := lit "\r\n"
def SP : Str := lit " "
def UA : Str := lit "User-Agent:"
def UAS : Str := lit "User-Agent: "

/-- `Request::split_to_row`: split the raw request on CRLF. -/
def split_to_row (s : Str) : List Str := split_on CRLF s

/-- `HttpMethod` from `src/request.rs`. -/
inductive HttpMethod
  | Get | Post | Head | Put | Delete | Connect | Options | Trace
deriving DecidableEq

/-- The `match substring` arms of `Request::get_method`: which method keyword,
if any, a token is. -/
def methodOfToken (t : Str) : Option HttpMethod :=
  if t = lit "GET" then some HttpMethod.Get
  else if t = lit "POST" then some HttpMethod.Post
  else if t = lit "HEAD" then some HttpMethod.Head
  else if t = lit "PUT" then some HttpMethod.Put
  else if t = lit "DELETE" then some HttpMethod.Delete
  else if t = lit "CONNECT" then some HttpMethod.Connect
  else if t = lit "OPTIONS" then some HttpMethod.Options
  else if t = lit "TRACE" then some HttpMethod.Trace
  else none

/-- Inner token loop of `Request::get_method`: sets `method` and breaks on the
first keyword token, otherwise continues with the current value. -/
def inner_scan : List Str → Option HttpMethod → Option HttpMethod
  | [], m => m
  | t :: ts, m =>
    match methodOfToken t with
    | some v => some v
    | none => inner_scan ts m

/-- Outer line loop of `Request::get_method`: runs the token scan on each line
and breaks as soon as `method` is set. -/
def get_methodAux : List Str → Option HttpMethod → Option HttpMethod
  | [], m => m
  | line :: rest, m =>
    let m' := inner_scan (split_on SP line) m
    if m'.isSome then m' else get_methodAux rest m'

/-- `Request::get_method`. -/
def get_method (rows : List Str) : Option HttpMethod :=
  get_methodAux rows none

/-- `Request::get_uri`: `strings[0]` split on a space, element 1.
`none` models the index-out-of-bounds panic. -/
def get_uri (rows : List Str) : Option Str :=
  match rows with
  | [] => none
  | s :: _ => (split_on SP s).get? 1

/-- Loop of `Request::get_user_agent` with the running `agent` value:
a line containing `"User-Agent:"` replaces `agent` by element 1 of the line
split on `"User-Agent: "` (`none` models the index panic when that split has a
single element); the loop breaks once `agent` differs from `"none"`. -/
def get_user_agentAux : List Str → Str → Option Str
  | [], agent => some agent
  | s :: rest, agent =>
    match (if contains_sub s UA then (split_on UAS s).get? 1 else some agent) with
    | none => none
    | some agent' =>
      if agent' ≠ lit "none" then some agent' else get_user_agentAux rest agent'

/-- `Request::get_user_agent`. -/
def get_user_agent (rows : List Str) : Option Str :=
  get_user_agentAux rows (lit "none")

/-- `Request` from `src/request.rs`. -/
structure Request where
  method : Option HttpMethod
  uri : Str
  user_agent : Str
  raw_request : List Str
deriving DecidableEq

/-- `Request::new`: split to rows, derive method, uri and user agent, in that
order; `none` models a panic in either derivation. -/
def Request.new (raw : Str) : Option Request :=
  let rows := split_to_row raw
  let method := get_method rows
  match get_uri rows with
  | none => none
  | some uri =>
    match get_user_agent rows with
    | none => none
    | some agent => some ⟨method, uri, agent, rows⟩

/-- The amended C8 description of the user-agent derivation, written from the
corrected spec wording: scan the lines in order; a line containing
`"User-Agent:"` yields as candidate the segment of the line strictly between
the first occurrence of `"User-Agent: "` and the next occurrence of that
marker (or the end of the line); a line containing `"User-Agent:"` but not
`"User-Agent: "` is a panic; scanning stops at the first candidate that
differs from the literal `"none"`; if the scan runs out of lines the value is
`"none"`. -/
def userAgentSpec : List Str → Option Str
  | [] => some (lit "none")
  | s :: rest =>
    if contains_sub s UA then
      match after_marker s UAS with
      | none => none
      | some t =>
        if before_marker t UAS = lit "none" then userAgentSpec rest
        else some (before_marker t UAS)
    else userAgentSpec rest

/-- Response payload, `DataType` from `src/routes.rs`. -/
inductive DataType
  | Text (s : Str)
  | Bytes (b : Str)
deriving DecidableEq

/-- A route callback: takes the parsed request, produces `Result<String, String>`.
(The `async` wrapper of the source adds nothing to the value computed.) -/
def Handler := Request → Except Str Str

/-- `Routes` from `src/routes.rs`.  The `HashMap<String, _>` is modelled as an
association list with exact-key lookup and insert-or-replace. -/
structure Routes where
  routes : List (Str × Handler)

/-- `HashMap::get` on the modelled table: exact string match. -/
def hm_get (l : List (Str × Handler)) (k : Str) : Option Handler :=
  match l.find? (fun p => p.1 == k) with
  | some p => some p.2
  | none => none

/-- `Routes::add_route`: `HashMap::insert` — replaces the handler if the route
exists, otherwise appends the new entry. -/
def Routes.add_route (rt : Routes) (route : Str) (content : Handler) : Routes :=
  if (rt.routes.find? (fun p => p.1 == route)).isSome then
    ⟨rt.routes.map (fun p => if p.1 == route then (route, content) else p)⟩
  else
    ⟨rt.routes ++ [(route, content)]⟩

/-- One lowercase hex digit as an ASCII byte. -/
def hexDigit (n : Nat) : Nat := if n < 10 then 48 + n else 87 + n

/-- Worker for `hexBytes`, with fuel (passing `n` itself is always enough,
since `n / 16 < n` whenever `16 ≤ n`). -/
def hexBytesAux : Nat → Nat → Str
  | 0, n => [hexDigit n]
  | fuel + 1, n =>
    if n < 16 then [hexDigit n]
    else hexBytesAux fuel (n / 16) ++ [hexDigit (n % 16)]

/-- Lowercase hex representation of `n` as ASCII bytes (the `write!("{:x}")` of
the `chunked_transfer` crate). -/
def hexBytes (n : Nat) : Str := hexBytesAux n n

/-- Chunk frames for chunk size `k + 1` (fuel-driven; `chunk_encode8` passes
the data length, which suffices since each step consumes at least one byte):
full chunks of `k + 1` bytes, then the final partial chunk if any, each framed
as `hex-size CRLF data CRLF`. -/
def chunkFromAux (k : Nat) : Nat → Str → Str
  | _, [] => []
  | 0, _ :: _ => []
  | fuel + 1, c :: tl =>
    if (c :: tl).length ≤ k + 1 then
      hexBytes (c :: tl).length ++ CRLF ++ (c :: tl) ++ CRLF
    else
      hexBytes (k + 1) ++ CRLF ++ (c :: tl).take (k + 1) ++ CRLF ++
        chunkFromAux k fuel ((c :: tl).drop (k + 1))

/-- `chunked_transfer::Encoder::with_chunks_size(out, 8)` fed the whole payload
by one `write_all` and then dropped: chunks of 8 bytes (the last one partial),
terminated by the `0 CRLF CRLF` end marker. -/
def chunk_encode8 (data : Str) : Str :=
  chunkFromAux 7 data.length data ++ hexBytes 0 ++ CRLF ++ CRLF

/-- UTF-8 validity automaton, one byte at a time.  `utf8Go s pending lo hi`:
`s` is valid given that `pending` continuation bytes are still expected, the
next of which must lie in `[lo, hi)` (later ones in `[0x80, 0xC0)`).  The lead
table is the standard one that Rust's `String::from_utf8` checks: no
continuation or overlong lead in head position, `0xE0`/`0xED` exclude overlong
forms and surrogates, `0xF0`/`0xF4` exclude overlong forms and values beyond
U+10FFFF. -/
def utf8Go : Str → Nat → Nat → Nat → Bool
  | [], pending, _, _ => pending == 0
  | b :: rest, 0, _, _ =>
    if b < 0x80 then utf8Go rest 0 0 0
    else if b < 0xC2 then false
    else if b < 0xE0 then utf8Go rest 1 0x80 0xC0
    else if b = 0xE0 then utf8Go rest 2 0xA0 0xC0
    else if b = 0xED then utf8Go rest 2 0x80 0xA0
    else if b < 0xF0 then utf8Go rest 2 0x80 0xC0
    else if b = 0xF0 then utf8Go rest 3 0x90 0xC0
    else if b < 0xF4 then utf8Go rest 3 0x80 0xC0
    else if b = 0xF4 then utf8Go rest 3 0x80 0x90
    else false
  | b :: rest, pending + 1, lo, hi =>
    if lo ≤ b ∧ b < hi then utf8Go rest pending 0x80 0xC0 else false

/-- UTF-8 validity of a byte sequence (the check `String::from_utf8` runs). -/
def validUtf8 (s : Str) : Bool := utf8Go s 0 0 0

/-- Is every byte of `s` ASCII? -/
def all_ascii (s : Str) : Bool := s.all (fun b => decide (b < 128))

/-- First response template of `Routes::get_route` (placeholder braces written
with their byte escapes; they are never substituted by the code). -/
def T1 : Str :=
  lit "HTTP/1.1 \x7b\x7d \x7b\x7d\r\nContent-type: image/jpeg;\r\nTransfer-Encoding: chunked\r\n\r\n"

/-- Second response template of `Routes::get_route` (`text/css` variant). -/
def T2 : Str :=
  lit "HTTP/1.1 \x7b\x7d \x7b\x7d\r\nContent-type: text/css;\r\nTransfer-Encoding: chunked\r\n\r\n"

/-- The static-file branch of `Routes::get_route`.  `fs` is the filesystem
oracle: `fs path = some bytes` means `tokio::fs::File::open(path)` succeeds
and reading yields `bytes`; `none` is an open failure.  The inner `none`
models the `.expect("This should work")` panic. -/
def serve_static (fs : Str → Option Str) (uri : Str) : Option (Except Str DataType) :=
  let file_path := lit "." ++ uri
  match fs file_path with
  | some contents =>
    let encoded := chunk_encode8 contents
    let result := T1 ++ encoded
    if validUtf8 result then
      let result2 := T2 ++ encoded
      if validUtf8 result2 then some (Except.ok (DataType.Text result2))
      else none
    else some (Except.ok (DataType.Bytes result))
  | none =>
    some (Except.ok (DataType.Text (lit "ERROR - CONTENT NOT AVAILABLE")))

/-- Invoking the resolved callback in `Routes::get_route`: `Ok(v)` becomes
`Text(v)`, `Err(_)` is discarded and becomes `Text(String::new())`. -/
def run_handler (f : Handler) (req : Request) : DataType :=
  match f req with
  | Except.ok v => DataType.Text v
  | Except.error _ => DataType.Text (lit "")

/-- `Routes::get_route`: parse the request (outer `none` models a panic inside
`Request::new`), serve static URIs from the filesystem, otherwise look the URI
up in the table, falling back to the `"err"` entry; the final `none` models the
`unwrap` panic when no `"err"` handler is registered. -/
def Routes.get_route (rt : Routes) (fs : Str → Option Str) (raw : Str) :
    Option (Except Str DataType) :=
  match Request.new raw with
  | none => none
  | some request =>
    if contains_sub request.uri (lit "static") then
      serve_static fs request.uri
    else
      match hm_get rt.routes request.uri with
      | some f => some (Except.ok (run_handler f request))
      | none =>
        match hm_get rt.routes (lit "err") with
        | some f => some (Except.ok (run_handler f request))
        | none => none

example : split_to_row (lit "a\r\nbc") = [lit "a", lit "bc"] := by decide
example : split_on UAS (lit "x User-Agent: a User-Agent: b") =
    [lit "x ", lit "a ", lit "b"] := by decide
example : Request.new (lit "GET /abc HTTP/1.1\r\nUser-Agent: tester") =
    some ⟨some HttpMethod.Get, lit "/abc", lit "tester",
      [lit "GET /abc HTTP/1.1", lit "User-Agent: tester"]⟩ := by decide
example : Request.new (lit "GET\r\nx") = none := by decide
example : Request.new (lit "GET /a b\r\nUser-Agent:x") = none := by decide
example : chunk_encode8 (lit "hi") = lit "2\r\nhi\r\n0\r\n\r\n" := by decide
example : chunk_encode8 (lit "abcdefghij") =
    lit "8\r\nabcdefgh\r\n2\r\nij\r\n0\r\n\r\n" := by decide
example : validUtf8 (lit "héllo€") = true := by decide
example : validUtf8 [104, 0xFF] = false := by decide
example : validUtf8 [0xED, 0xA0, 0x80] = false := by decide
example : hexBytes 255 = lit "ff" := by decide

/-! ### Properties of the splitting and scanning primitives -/

theorem contains_iff_after (p : Str) :
    ∀ s : Str, contains_sub s p = (after_marker s p).isSome := by
  intro s
  induction s with
  | nil =>
    by_cases h : starts_with [] p <;> simp [contains_sub, after_marker, h]
  | cons c rest ih =>
    by_cases h : starts_with (c :: rest) p <;>
      simp [contains_sub, after_marker, h, ih]

theorem before_eq_self_of_no_marker (p : Str) :
    ∀ s : Str, after_marker s p = none → before_marker s p = s := by
  intro s
  induction s with
  | nil =>
    intro _
    by_cases hs : starts_with [] p <;> simp [before_marker, hs]
  | cons c rest ih =>
    intro h
    by_cases hs : starts_with (c :: rest) p
    · simp [after_marker, hs] at h
    · simp only [after_marker, hs, if_neg, Bool.false_eq_true, if_false] at h
      simp [before_marker, hs, ih h]

theorem split_aux_fuel (b : Nat) (sep : Str) :
    ∀ f1 f2 s acc, s.length ≤ f1 → s.length ≤ f2 →
      split_aux b sep f1 s acc = split_aux b sep f2 s acc := by
  intro f1
  induction f1 with
  | zero =>
    intro f2 s acc h1 _
    have hs : s = [] := List.eq_nil_of_length_eq_zero (Nat.le_zero.mp h1)
    subst hs
    cases f2 <;> simp [split_aux]
  | succ f ih =>
    intro f2 s acc h1 h2
    cases s with
    | nil => cases f2 <;> simp [split_aux]
    | cons c rest =>
      cases f2 with
      | zero => simp at h2
      | succ f2' =>
        have hr1 : rest.length ≤ f := by simp at h1; omega
        have hr2 : rest.length ≤ f2' := by simp at h2; omega
        by_cases hs : starts_with (c :: rest) (b :: sep)
        · simp only [split_aux, hs, if_true]
          have hd1 : (rest.drop sep.length).length ≤ f := by
            simp [List.length_drop]; omega
          have hd2 : (rest.drop sep.length).length ≤ f2' := by
            simp [List.length_drop]; omega
          rw [ih f2' _ [] hd1 hd2]
        · simp only [split_aux, hs, Bool.false_eq_true, if_false]
          exact ih f2' rest (c :: acc) hr1 hr2

theorem split_aux_spec (b : Nat) (sep : Str) :
    ∀ fuel s acc, s.length ≤ fuel →
      split_aux b sep fuel s acc =
        match after_marker s (b :: sep) with
        | none => [acc.reverse ++ s]
        | some t =>
            (acc.reverse ++ before_marker s (b :: sep)) :: split_on (b :: sep) t := by
  intro fuel
  induction fuel with
  | zero =>
    intro s acc h
    have hs : s = [] := List.eq_nil_of_length_eq_zero (Nat.le_zero.mp h)
    subst hs
    have hsw : starts_with [] (b :: sep) = false := rfl
    simp [split_aux, after_marker, hsw]
  | succ f ih =>
    intro s acc h
    cases s with
    | nil =>
      have hsw : starts_with [] (b :: sep) = false := rfl
      simp [split_aux, after_marker, hsw]
    | cons c rest =>
      by_cases hs : starts_with (c :: rest) (b :: sep)
      · have hafter : after_marker (c :: rest) (b :: sep) = some (rest.drop sep.length) := by
          simp [after_marker, hs, List.drop_succ_cons]
        have hbefore : before_marker (c :: rest) (b :: sep) = [] := by
          simp [before_marker, hs]
        rw [hafter, hbefore]
        simp only [split_aux, hs, if_true]
        have hlen : (rest.drop sep.length).length ≤ f := by
          simp only [List.length_cons] at h
          simp [List.length_drop]; omega
        rw [split_aux_fuel b sep f (rest.drop sep.length).length _ [] hlen (le_refl _)]
        simp [split_on]
      · have hafter : after_marker (c :: rest) (b :: sep) = after_marker rest (b :: sep) := by
          simp only [after_marker, hs, Bool.false_eq_true, if_false]
        have hbefore :
            before_marker (c :: rest) (b :: sep) = c :: before_marker rest (b :: sep) := by
          simp only [before_marker, hs, Bool.false_eq_true, if_false]
        have hlen : rest.length ≤ f := by simp at h; omega
        rw [hafter, hbefore]
        simp only [split_aux, hs, Bool.false_eq_true, if_false]
        rw [ih rest (c :: acc) hlen]
        cases hA : after_marker rest (b :: sep) with
        | none => simp
        | some t => simp

theorem split_on_head (sep : Str) (hsep : sep ≠ []) (s : Str) :
    (split_on sep s).get? 0 = some (before_marker s sep) := by
  obtain ⟨b, sep', rfl⟩ : ∃ b sep'', sep = b :: sep'' := by
    cases sep with
    | nil => exact absurd rfl hsep
    | cons b t => exact ⟨b, t, rfl⟩
  show (split_aux b sep' s.length s []).get? 0 = _
  rw [split_aux_spec b sep' s.length s [] (le_refl _)]
  cases hA : after_marker s (b :: sep') with
  | none => simp [before_eq_self_of_no_marker _ _ hA]
  | some t => simp

theorem split_on_get1 (sep : Str) (hsep : sep ≠ []) (s : Str) :
    (split_on sep s).get? 1 = (after_marker s sep).map (fun t => before_marker t sep) := by
  obtain ⟨b, sep', rfl⟩ : ∃ b sep'', sep = b :: sep'' := by
    cases sep with
    | nil => exact absurd rfl hsep
    | cons b t => exact ⟨b, t, rfl⟩
  show (split_aux b sep' s.length s []).get? 1 = _
  rw [split_aux_spec b sep' s.length s [] (le_refl _)]
  cases hA : after_marker s (b :: sep') with
  | none => simp
  | some t =>
    simp only [Option.map_some']
    show (split_on (b :: sep') t).get? 0 = _
    exact split_on_head (b :: sep') (by simp) t

theorem split_on_no_contain (sep : Str) (hsep : sep ≠ []) (s : Str)
    (h : contains_sub s sep = false) : split_on sep s = [s] := by
  obtain ⟨b, sep', rfl⟩ : ∃ b sep'', sep = b :: sep'' := by
    cases sep with
    | nil => exact absurd rfl hsep
    | cons b t => exact ⟨b, t, rfl⟩
  have hA : after_marker s (b :: sep') = none := by
    have hc := contains_iff_after (b :: sep') s
    rw [h] at hc
    cases hx : after_marker s (b :: sep') with
    | none => rfl
    | some t => rw [hx] at hc; simp at hc
  show split_aux b sep' s.length s [] = [s]
  rw [split_aux_spec b sep' s.length s [] (le_refl _), hA]
  simp

theorem split_aux_ne_nil (b : Nat) (sep : Str) :
    ∀ fuel s acc, split_aux b sep fuel s acc ≠ [] := by
  intro fuel
  induction fuel with
  | zero =>
    intro s acc
    cases s <;> simp [split_aux]
  | succ f ih =>
    intro s acc
    cases s with
    | nil => simp [split_aux]
    | cons c rest =>
      by_cases hs : starts_with (c :: rest) (b :: sep)
      · simp [split_aux, hs]
      · simp only [split_aux, hs, Bool.false_eq_true, if_false]
        exact ih rest (c :: acc)

theorem split_on_ne_nil (sep s : Str) : split_on sep s ≠ [] := by
  cases sep with
  | nil => simp [split_on]
  | cons b t => exact split_aux_ne_nil b t s.length s []

theorem get1_none_of_short {α : Type} (l : List α) (h : l.length < 2) :
    l.get? 1 = none := by
  cases l with
  | nil => rfl
  | cons a t =>
    cases t with
    | nil => rfl
    | cons b u =>
      simp only [List.length_cons] at h
      omega

/-! ### The method scan as a first-match search -/

theorem findSome_append {α β : Type} (f : α → Option β) :
    ∀ l1 l2 : List α, (l1 ++ l2).findSome? f =
      match l1.findSome? f with
      | some v => some v
      | none => l2.findSome? f := by
  intro l1 l2
  induction l1 with
  | nil => simp [List.findSome?]
  | cons a t ih =>
    simp only [List.cons_append, List.findSome?]
    cases f a <;> simp [ih]

theorem findSome_eq_none_of_all_none {α β : Type} (f : α → Option β) :
    ∀ l : List α, (∀ x ∈ l, f x = none) → l.findSome? f = none := by
  intro l
  induction l with
  | nil => intro _; rfl
  | cons a t ih =>
    intro h
    have ha : f a = none := h a (by simp)
    simp only [List.findSome?, ha]
    exact ih (fun x hx => h x (by simp [hx]))

theorem inner_scan_eq :
    ∀ ts : List Str, inner_scan ts none = ts.findSome? methodOfToken := by
  intro ts
  induction ts with
  | nil => rfl
  | cons t rest ih =>
    simp only [inner_scan, List.findSome?]
    cases methodOfToken t <;> simp [ih]

theorem get_method_eq_findSome (rows : List Str) :
    get_method rows =
      (rows.flatMap (fun line => split_on SP line)).findSome? methodOfToken := by
  unfold get_method
  induction rows with
  | nil => rfl
  | cons line rest ih =>
    simp only [get_methodAux, List.flatMap_cons]
    rw [findSome_append, inner_scan_eq]
    cases h : (split_on SP line).findSome? methodOfToken with
    | none => simpa [h] using ih
    | some v => simp [h]

/-! ### The user-agent scan -/

theorem get_user_agentAux_spec :
    ∀ rows : List Str, get_user_agentAux rows (lit "none") = userAgentSpec rows := by
  intro rows
  induction rows with
  | nil => rfl
  | cons s rest ih =>
    by_cases hc : contains_sub s UA
    · simp only [get_user_agentAux, userAgentSpec, hc, if_true]
      rw [split_on_get1 UAS (by decide) s]
      cases hA : after_marker s UAS with
      | none => rfl
      | some t =>
        simp only [Option.map_some']
        by_cases ht : before_marker t UAS = lit "none"
        · simp [ht, ih]
        · simp [ht]
    · simp only [get_user_agentAux, userAgentSpec, hc, Bool.false_eq_true, if_false]
      simpa using ih

theorem user_agent_panic_of_marker (line : Str) (suf : List Str)
    (hline : contains_sub line UA = true) (hnosp : contains_sub line UAS = false) :
    ∀ pre : List Str, (∀ l ∈ pre, contains_sub l UA = false) →
      get_user_agent (pre ++ line :: suf) = none := by
  intro pre
  induction pre with
  | nil =>
    intro _
    unfold get_user_agent
    simp only [List.nil_append, get_user_agentAux, hline, if_true]
    rw [split_on_no_contain UAS (by decide) line hnosp]
    rfl
  | cons l pre' ih =>
    intro hpre
    have hl : contains_sub l UA = false := hpre l (by simp)
    unfold get_user_agent at ih ⊢
    simp only [List.cons_append, get_user_agentAux, hl, Bool.false_eq_true, if_false]
    simpa using ih (fun x hx => hpre x (by simp [hx]))

/-! ### ASCII prefixes and UTF-8 validity -/

theorem validUtf8_ascii_append :
    ∀ p r : Str, all_ascii p = true → validUtf8 (p ++ r) = validUtf8 r := by
  intro p
  induction p with
  | nil => intro r _; rfl
  | cons b p' ih =>
    intro r h
    simp only [all_ascii, List.all_cons, Bool.and_eq_true, decide_eq_true_eq] at h
    obtain ⟨hb, hrest⟩ := h
    show validUtf8 (b :: (p' ++ r)) = validUtf8 r
    show utf8Go (b :: (p' ++ r)) 0 0 0 = validUtf8 r
    simp only [utf8Go]
    rw [if_pos hb]
    exact ih r hrest

/-! ### The claims -/

/-- C1: for a request whose URI does not contain `"static"`, `get_route` looks
the URI up in the route table by exact match; on a miss it invokes the handler
registered under `"err"`, and if no `"err"` entry is registered it panics
(modelled by `none`) instead of returning a recoverable error value. -/
theorem c1_lookup_miss_fallback (rt : Routes) (fs : Str → Option Str) (raw : Str)
    (req : Request)
    (hreq : Request.new raw = some req)
    (hns : contains_sub req.uri (lit "static") = false)
    (hmiss : hm_get rt.routes req.uri = none) :
    (hm_get rt.routes (lit "err") = none → Routes.get_route rt fs raw = none) ∧
    (∀ f, hm_get rt.routes (lit "err") = some f →
      Routes.get_route rt fs raw = some (Except.ok (run_handler f req))) := by
  constructor
  · intro herr
    simp [Routes.get_route, hreq, hns, hmiss, herr]
  · intro f herr
    simp [Routes.get_route, hreq, hns, hmiss, herr]

theorem c1_witness :
    Routes.get_route ⟨[]⟩ (fun _ => none) (lit "GET / HTTP/1.1") = none :=
  (c1_lookup_miss_fallback ⟨[]⟩ (fun _ => none) (lit "GET / HTTP/1.1")
      ⟨some HttpMethod.Get, lit "/", lit "none", [lit "GET / HTTP/1.1"]⟩
      (by decide) (by decide) rfl).1 rfl

/-- C2: when the resolved handler (direct hit, or miss resolved through the
`"err"` entry) returns `Err(s)`, `get_route` returns `Text("")`: the error
string is discarded and no failure status is surfaced. -/
theorem c2_handler_error_swallowed (rt : Routes) (fs : Str → Option Str) (raw : Str)
    (req : Request) (f : Handler) (s : Str)
    (hreq : Request.new raw = some req)
    (hns : contains_sub req.uri (lit "static") = false)
    (hres : hm_get rt.routes req.uri = some f ∨
      (hm_get rt.routes req.uri = none ∧ hm_get rt.routes (lit "err") = some f))
    (herr : f req = Except.error s) :
    Routes.get_route rt fs raw = some (Except.ok (DataType.Text (lit ""))) := by
  rcases hres with h | ⟨h1, h2⟩
  · simp [Routes.get_route, hreq, hns, h, run_handler, herr]
  · simp [Routes.get_route, hreq, hns, h1, h2, run_handler, herr]

theorem c2_witness :
    Routes.get_route ⟨[(lit "/", fun _ => Except.error (lit "boom"))]⟩ (fun _ => none)
      (lit "GET / HTTP/1.1") = some (Except.ok (DataType.Text (lit ""))) :=
  c2_handler_error_swallowed ⟨[(lit "/", fun _ => Except.error (lit "boom"))]⟩
    (fun _ => none) (lit "GET / HTTP/1.1")
    ⟨some HttpMethod.Get, lit "/", lit "none", [lit "GET / HTTP/1.1"]⟩
    (fun _ => Except.error (lit "boom")) (lit "boom")
    (by decide) (by decide) (Or.inl rfl) rfl

/-- C3: the parsed method is the first token, scanning the CRLF-split lines in
order and the space-split tokens of each line in order, that equals one of the
eight method keywords (`methodOfToken`); if no token matches anywhere the
method is `none`. -/
theorem c3_method_first_token (raw : Str) :
    get_method (split_to_row raw) =
      ((split_to_row raw).flatMap (fun line => split_on SP line)).findSome? methodOfToken ∧
    ((∀ tok ∈ (split_to_row raw).flatMap (fun line => split_on SP line),
        methodOfToken tok = none) → get_method (split_to_row raw) = none) := by
  constructor
  · exact get_method_eq_findSome _
  · intro h
    rw [get_method_eq_findSome]
    exact findSome_eq_none_of_all_none _ _ h

theorem c3_witness :
    get_method (split_to_row (lit "hello /x\r\nfoo: bar")) = none :=
  (c3_method_first_token (lit "hello /x\r\nfoo: bar")).2 (by decide)

/-- C4: a request whose URI contains `"static"` is answered by the static-file
branch (filesystem path `"." ++ uri`) before any route-table lookup: the
result does not depend on the route table at all, so no registered handler is
invoked even if one is registered under that exact URI. -/
theorem c4_static_bypasses_table (rt : Routes) (fs : Str → Option Str) (raw : Str)
    (req : Request)
    (hreq : Request.new raw = some req)
    (hst : contains_sub req.uri (lit "static") = true) :
    Routes.get_route rt fs raw = serve_static fs req.uri := by
  simp [Routes.get_route, hreq, hst]

theorem c4_witness :
    Routes.get_route ⟨[(lit "/static/a", fun _ => Except.ok (lit "handled"))]⟩
      (fun _ => none) (lit "GET /static/a HTTP/1.1") =
      serve_static (fun _ => none) (lit "/static/a") :=
  c4_static_bypasses_table ⟨[(lit "/static/a", fun _ => Except.ok (lit "handled"))]⟩
    (fun _ => none) (lit "GET /static/a HTTP/1.1")
    ⟨some HttpMethod.Get, lit "/static/a", lit "none", [lit "GET /static/a HTTP/1.1"]⟩
    (by decide) (by decide)

/-- C5: when the static file opens with content `c`, the payload is the
8-byte-chunked encoding of `c` appended to the literal `image/jpeg` template
`T1` (status placeholders unsubstituted); if that framed byte sequence is
valid UTF-8 the same chunked body is instead appended to the `text/css`
template `T2` and returned as `Text`, otherwise the `T1` framing is returned
as `Bytes`. -/
theorem c5_static_success_framing (rt : Routes) (fs : Str → Option Str) (raw : Str)
    (req : Request) (c : Str)
    (hreq : Request.new raw = some req)
    (hst : contains_sub req.uri (lit "static") = true)
    (hopen : fs (lit "." ++ req.uri) = some c) :
    Routes.get_route rt fs raw =
      some (Except.ok
        (if validUtf8 (T1 ++ chunk_encode8 c)
         then DataType.Text (T2 ++ chunk_encode8 c)
         else DataType.Bytes (T1 ++ chunk_encode8 c))) := by
  have hroute : Routes.get_route rt fs raw = serve_static fs req.uri := by
    simp [Routes.get_route, hreq, hst]
  rw [hroute]
  simp only [serve_static]
  rw [hopen]
  by_cases hv : validUtf8 (T1 ++ chunk_encode8 c)
  · have h1 : validUtf8 (T1 ++ chunk_encode8 c) = validUtf8 (chunk_encode8 c) :=
      validUtf8_ascii_append T1 _ (by decide)
    have h2 : validUtf8 (T2 ++ chunk_encode8 c) = validUtf8 (chunk_encode8 c) :=
      validUtf8_ascii_append T2 _ (by decide)
    have hv2 : validUtf8 (T2 ++ chunk_encode8 c) = true := by
      rw [h2, ← h1]; exact hv
    simp [hv, hv2]
  · simp [hv]

theorem c5_witness :
    Routes.get_route ⟨[]⟩
      (fun p => if p = lit "./static/a" then some (lit "hi") else none)
      (lit "GET /static/a HTTP/1.1") =
      some (Except.ok (DataType.Text (T2 ++ chunk_encode8 (lit "hi")))) := by
  rw [c5_static_success_framing ⟨[]⟩
      (fun p => if p = lit "./static/a" then some (lit "hi") else none)
      (lit "GET /static/a HTTP/1.1")
      ⟨some HttpMethod.Get, lit "/static/a", lit "none", [lit "GET /static/a HTTP/1.1"]⟩
      (lit "hi") (by decide) (by decide) (by decide)]
  have hcond : validUtf8 (T1 ++ chunk_encode8 (lit "hi")) = true := by decide
  rw [if_pos hcond]

/-- C6: when the static-file open fails, `get_route` returns the literal
payload `Text("ERROR - CONTENT NOT AVAILABLE")`; the failure is absorbed, not
propagated as an error result. -/
theorem c6_static_open_failure (rt : Routes) (fs : Str → Option Str) (raw : Str)
    (req : Request)
    (hreq : Request.new raw = some req)
    (hst : contains_sub req.uri (lit "static") = true)
    (hopen : fs (lit "." ++ req.uri) = none) :
    Routes.get_route rt fs raw =
      some (Except.ok (DataType.Text (lit "ERROR - CONTENT NOT AVAILABLE"))) := by
  have hroute : Routes.get_route rt fs raw = serve_static fs req.uri := by
    simp [Routes.get_route, hreq, hst]
  rw [hroute]
  simp only [serve_static]
  rw [hopen]

theorem c6_witness :
    Routes.get_route ⟨[]⟩ (fun _ => none) (lit "GET /static/missing HTTP/1.1") =
      some (Except.ok (DataType.Text (lit "ERROR - CONTENT NOT AVAILABLE"))) :=
  c6_static_open_failure ⟨[]⟩ (fun _ => none) (lit "GET /static/missing HTTP/1.1")
    ⟨some HttpMethod.Get, lit "/static/missing", lit "none",
      [lit "GET /static/missing HTTP/1.1"]⟩
    (by decide) (by decide) rfl

/-- C7: the parsed uri is the second space-split token of the first line,
taken verbatim; if the first line has fewer than two such tokens, parsing
panics (`Request.new` is `none`) instead of returning a `Request`. -/
theorem c7_uri_second_token (raw : Str) :
    (∀ t, (split_on SP ((split_to_row raw).headD [])).get? 1 = some t →
        get_uri (split_to_row raw) = some t) ∧
    ((split_on SP ((split_to_row raw).headD [])).length < 2 →
        Request.new raw = none) := by
  obtain ⟨r0, rest, hrows⟩ : ∃ r0 rest, split_to_row raw = r0 :: rest := by
    cases h : split_to_row raw with
    | nil => exact absurd h (split_on_ne_nil CRLF raw)
    | cons a t => exact ⟨a, t, rfl⟩
  rw [hrows]
  constructor
  · intro t ht
    exact ht
  · intro hlen
    have huri : get_uri (r0 :: rest) = none := by
      simp only [get_uri]
      exact get1_none_of_short _ (by simpa using hlen)
    simp [Request.new, hrows, huri]

theorem c7_witness :
    get_uri (split_to_row (lit "GET /abc HTTP/1.1\r\nHost: x")) = some (lit "/abc") :=
  (c7_uri_second_token (lit "GET /abc HTTP/1.1\r\nHost: x")).1 (lit "/abc") (by decide)

/-- C8 counterexample: for the raw text
`"User-Agent: none\r\nUser-Agent: x User-Agent: y"` the claim predicts the
user agent `"none"` (everything after the marker in the first line containing
it, with scanning stopping there); the code instead keeps scanning past that
line (its value equals the default) and yields `"x "` (only the segment up to
the next marker occurrence). -/
theorem c8_counterexample :
    get_user_agent (split_to_row (lit "User-Agent: none\r\nUser-Agent: x User-Agent: y")) =
      some (lit "x ") ∧ some (lit "x ") ≠ some (lit "none") := by
  decide

/-- C8 (amended): the user agent is computed by scanning the CRLF-split lines
in order; a line containing `"User-Agent:"` yields as candidate the segment
strictly between the first occurrence of `"User-Agent: "` and the next
occurrence of that marker (or the end of the line), and a line containing
`"User-Agent:"` but not `"User-Agent: "` panics; scanning stops at the first
candidate different from the literal `"none"`, and if the scan runs out of
lines the user agent is `"none"`. -/
theorem c8_user_agent_amended (raw : Str) :
    get_user_agent (split_to_row raw) = userAgentSpec (split_to_row raw) :=
  get_user_agentAux_spec _

/-- C10: if the first line containing the substring `"User-Agent:"` does not
contain `"User-Agent: "` (marker with trailing space), `Request::new` panics
(modelled by `none`) instead of returning a `Request`. -/
theorem c10_user_agent_marker_panic (raw : Str) (pre suf : List Str) (line : Str)
    (hsplit : split_to_row raw = pre ++ line :: suf)
    (hpre : ∀ l ∈ pre, contains_sub l UA = false)
    (hline : contains_sub line UA = true)
    (hnosp : contains_sub line UAS = false) :
    Request.new raw = none := by
  have hua : get_user_agent (split_to_row raw) = none := by
    rw [hsplit]
    exact user_agent_panic_of_marker line suf hline hnosp pre hpre
  cases hu : get_uri (split_to_row raw) with
  | none => simp [Request.new, hu]
  | some u => simp [Request.new, hu, hua]

theorem c10_witness :
    Request.new (lit "GET / HTTP/1.1\r\nUser-Agent:x") = none :=
  c10_user_agent_marker_panic (lit "GET / HTTP/1.1\r\nUser-Agent:x")
    [lit "GET / HTTP/1.1"] [] (lit "User-Agent:x")
    (by decide) (by decide) (by decide) (by decide)

end MicroHttp
